import Mathlib

/-!
Shallow embedding of the core of the proxima node, for checking its
natural-language specification: multistate (state store, root records,
atomic update), the peering heartbeat and pull wire frames, the pull
client's retry queue, and the vertex/attacher flag words.

Machine integers are modelled as `Nat` with explicit `% 2 ^ w` where the
Go code relies on wrap-around; byte strings are `List Nat`; fallible Go
code (errors and `util.Assertf` panics) returns `Except String _` or
`Option _`.
-/

namespace Proxima

/-! ### Byte-string primitives (encoding/binary big-endian) -/

/-- `binary.BigEndian.PutUintN`: big-endian encoding of `n` into `w` bytes
(most significant first). -/
def beBytes : Nat → Nat → List Nat
  | 0, _ => []
  | w + 1, n => beBytes w (n / 256) ++ [n % 256]

/-- `binary.BigEndian.UintN`: big-endian decoding of a byte list. -/
def beToNat (l : List Nat) : Nat := l.foldl (fun a b => a * 256 + b) 0

/-! ### Ledger identifiers

The `ledger` package is not under src/.  Modelled from the spec:
a TransactionID is a fixed-width byte string (32 bytes, cf. the pull
frame "count × 32-byte txid") encoding a slot (32-bit epoch) in its
big-endian prefix; an OutputID is a TransactionID concatenated with a
1-byte output index. -/

def TransactionIDLength : Nat := 32

def OutputIDLength : Nat := TransactionIDLength + 1

abbrev TransactionID := { l : List Nat // l.length = TransactionIDLength }

abbrev OutputID := { l : List Nat // l.length = OutputIDLength }

/-- Modelled from the spec: `ledger.OutputIDFromBytes` (absent from src/)
parses a fixed-width OutputID, rejecting data of wrong length. -/
def OutputIDFromBytes (l : List Nat) : Except String OutputID :=
  if h : l.length = OutputIDLength then .ok ⟨l, h⟩
  else .error "wrong data length"

/-- Modelled from the spec: the slot is the 32-bit big-endian epoch prefix
of the transaction id. -/
def OutputID.slot (oid : OutputID) : Nat := beToNat (oid.val.take 4)

/-- Modelled from the spec: the branch transaction id of a stem output id
(`OutputID.TransactionID()`, absent from src/): the OutputID without its
final index byte. -/
def OutputID.transactionID (oid : OutputID) : List Nat :=
  oid.val.take TransactionIDLength

end Proxima

namespace Proxima.Vertex

/-! ### core/vertex/types.go — `Flags uint8` -/

def FlagVertexDefined : Nat := 0b00000001
def FlagVertexConstraintsValid : Nat := 0b00000010
def FlagVertexTxBytesPersisted : Nat := 0b00000100

/-- `func (f *Flags) FlagsUp(fl Flags) bool { return *f&fl == fl }` -/
def FlagsUp (f fl : Nat) : Bool := f &&& fl == fl

/-- `func (f *Flags) SetFlagsUp(fl Flags) { *f = *f | fl }` -/
def SetFlagsUp (f fl : Nat) : Nat := f ||| fl

end Proxima.Vertex

namespace Proxima.Attacher

/-! ### core/attacher/types.go — `Flags uint8` -/

def FlagKnown : Nat := 0b00000001
def FlagDefined : Nat := 0b00000010
def FlagEndorsementsSolid : Nat := 0b00000100
def FlagInputsSolid : Nat := 0b00001000

/-- `func (f Flags) FlagsUp(fl Flags) bool { return f&fl == fl }` -/
def FlagsUp (f fl : Nat) : Bool := f &&& fl == fl

end Proxima.Attacher

namespace Proxima.Peering

/-! ### peering — heartbeat frame (peers.go) -/

/-- `heartbeatInfo`: the clock is carried as unix nanoseconds (`int64`
semantics, hence `Int`). -/
structure heartbeatInfo where
  clock : Int
  ignoresAllPullRequests : Bool
  acceptsPullRequestsFromStaticPeersOnly : Bool
deriving DecidableEq

/-- `flagIgnoresAllPullRequests = byte(0b00000001)` -/
def flagIgnoresAllPullRequests : Nat := 0b00000001

/-- `flagAcceptsPullRequestsFromStaticPeersOnly = byte(0x00000010)` —
written with an `0x` radix in the source, hence the value 16. -/
def flagAcceptsPullRequestsFromStaticPeersOnly : Nat := 0x00000010

/-- `func (hi *heartbeatInfo) flags() (ret byte)` -/
def heartbeatInfo.flags (hi : heartbeatInfo) : Nat :=
  let ret := 0
  let ret := if hi.ignoresAllPullRequests then ret ||| flagIgnoresAllPullRequests else ret
  if hi.acceptsPullRequestsFromStaticPeersOnly then
    ret ||| flagAcceptsPullRequestsFromStaticPeersOnly
  else ret

/-- `func (hi *heartbeatInfo) setFromFlags(fl byte)` -/
def heartbeatInfo.setFromFlags (hi : heartbeatInfo) (fl : Nat) : heartbeatInfo :=
  { hi with
    ignoresAllPullRequests := fl &&& flagIgnoresAllPullRequests != 0
    acceptsPullRequestsFromStaticPeersOnly :=
      fl &&& flagAcceptsPullRequestsFromStaticPeersOnly != 0 }

/-- `uint64(hi.clock.UnixNano())`: two's-complement reinterpretation of an
`int64` as a `uint64`. -/
def uint64OfInt64 (i : Int) : Nat := (i % 2 ^ 64).toNat

/-- `int64(binary.BigEndian.Uint64(..))`: two's-complement
reinterpretation of a `uint64` as an `int64`. -/
def int64OfUint64 (n : Nat) : Int :=
  if n < 2 ^ 63 then (n : Int) else (n : Int) - 2 ^ 64

/-- `func (hi *heartbeatInfo) Bytes() []byte`: 8-byte big-endian unix-nano
clock followed by the flags byte. -/
def heartbeatInfo.Bytes (hi : heartbeatInfo) : List Nat :=
  beBytes 8 (uint64OfInt64 hi.clock) ++ [hi.flags]

/-- `func heartbeatInfoFromBytes(data []byte) (heartbeatInfo, error)` -/
def heartbeatInfoFromBytes (data : List Nat) : Except String heartbeatInfo :=
  if data.length ≠ 8 + 1 then
    .error "heartbeatInfoFromBytes: wrong data len"
  else
    let ret : heartbeatInfo :=
      { clock := int64OfUint64 (beToNat (data.take 8))
        ignoresAllPullRequests := false
        acceptsPullRequestsFromStaticPeersOnly := false }
    .ok (ret.setFromFlags (data.getD 8 0))

end Proxima.Peering

namespace Proxima.PullClient

/-! ### core/work_process/pull_client/pull_client.go

Time is modelled in milliseconds as `Nat`; the Go map
`map[ledger.TransactionID]pullRecord` is modelled as an association list
with pairwise-distinct keys; the side effects (peer queries, workflow
re-injection) are returned as an explicit list of actions. -/

structure pullRecord where
  start : Nat
  nextDeadline : Nat
deriving DecidableEq

/-- `pullPeriod = 500 * time.Millisecond` -/
def pullPeriod : Nat := 500

/-- `startPullingFromAllAfterNumRandomPulls = 10` -/
def startPullingFromAllAfterNumRandomPulls : Nat := 10

/-- `pullLoopPeriod = 50 * time.Millisecond` -/
def pullLoopPeriod : Nat := 50

abbrev PullList := List (TransactionID × pullRecord)

def PullList.lookup (pl : PullList) (txid : TransactionID) : Option pullRecord :=
  (pl.find? (fun p => decide (p.1 = txid))).map Prod.snd

/-- Side effects of the pull client, made explicit. -/
inductive Action where
  | transactionIn (txBytesWithMetadata : List Nat)
  | pullFromRandomPeer (lst : List TransactionID)
  | pullFromAllPeers (lst : List TransactionID)
deriving DecidableEq

/-- `func (p *PullClient) startPulling(txid ledger.TransactionID, by string)`.
`txStore` is the local tx-bytes store lookup
(`p.TxBytesStore().GetTxBytesWithMetadata`, empty result = absent). -/
def startPulling (txStore : TransactionID → List Nat) (now : Nat)
    (pl : PullList) (txid : TransactionID) : PullList × List Action :=
  if (pl.lookup txid).isSome then
    (pl, [])
  else
    let txBytesWithMetadata := txStore txid
    if txBytesWithMetadata.length > 0 then
      (pl, [.transactionIn txBytesWithMetadata])
    else
      ((txid, { start := now, nextDeadline := now + pullPeriod }) :: pl,
       [.pullFromRandomPeer [txid]])

/-- `func (p *PullClient) maturedPullList(buf)`: matured transaction ids,
the rewritten pull list, and the at-least-one-is-stuck flag. -/
def maturedPullList (now : Nat) : PullList → List TransactionID × PullList × Bool
  | [] => ([], [], false)
  | p :: rest =>
    let (buf, newRest, stuck) := maturedPullList now rest
    if now > p.2.nextDeadline then
      (p.1 :: buf,
       (p.1, { start := p.2.start, nextDeadline := now + pullPeriod }) :: newRest,
       stuck || decide (now - p.2.start > pullPeriod * startPullingFromAllAfterNumRandomPulls))
    else
      (buf, p :: newRest, stuck)

/-- One iteration of `func (p *PullClient) backgroundPullLoop()` after the
50 ms tick fires. -/
def backgroundPullStep (now : Nat) (pl : PullList) : PullList × List Action :=
  let (buffer, newPl, stuck) := maturedPullList now pl
  if buffer.length > 0 then
    if stuck then (newPl, [.pullFromAllPeers buffer])
    else (newPl, [.pullFromRandomPeer buffer])
  else (newPl, [])

/-- `func (p *PullClient) stopPulling(txid ledger.TransactionID)` -/
def stopPulling (pl : PullList) (txid : TransactionID) : PullList :=
  pl.filter (fun p => decide (p.1 ≠ txid))

end Proxima.PullClient

namespace Proxima.Multistate

/-! ### multistate/state.go — partitions, Readable, Updatable -/

def PartitionLedgerState : Nat := 0
def PartitionAccounts : Nat := 1
def PartitionChainID : Nat := 2
def PartitionCommittedTransactionID : Nat := 3

/-- Modelled from the spec: `ledger.StemAccountID` (absent from src/), the
fixed identifier of the stem account; its concrete value is immaterial to
the properties proved. -/
def StemAccountID : List Nat := [0]

/-- Flat key/value view of the immutable trie under one root
(`immutable.TrieReader` of the external unitrie library), with the byte
partitioning of state.go.  Keys are listed in iteration order, pairwise
distinct. -/
structure StateKV where
  kv : List (List Nat × List Nat)

def StateKV.lookup (s : StateKV) (k : List Nat) : Option (List Nat) :=
  (s.kv.find? (fun p => decide (p.1 = k))).map Prod.snd

/-- `trie.Iterator(pfx).IterateKeys`: the keys under a byte prefix, in
iteration order. -/
def StateKV.keysUnderPfx (s : StateKV) (pfx : List Nat) : List (List Nat) :=
  (s.kv.map Prod.fst).filter (fun k => pfx.isPrefixOf k)

/-- `func (r *Readable) _getUTXO(oid)`: partitioned lookup; an empty value
counts as absent (`len(ret) == 0`). -/
def getUTXO (s : StateKV) (oid : OutputID) : Option (List Nat) :=
  match s.lookup (PartitionLedgerState :: oid.val) with
  | none => none
  | some v => if v = [] then none else some v

/-- `accountPrefix := common.Concat(PartitionAccounts, byte(len(ledger.StemAccountID)), ledger.StemAccountID)` -/
def stemAccountPfx : List Nat :=
  PartitionAccounts :: StemAccountID.length :: StemAccountID

/-- One iteration of the `GetStem` callback: `count` starts at 0; the two
`util.Assertf` panics are modelled as errors. -/
def getStemStep (s : StateKV) (acc : Nat × Nat × List Nat) (k : List Nat) :
    Except String (Nat × Nat × List Nat) :=
  if acc.1 ≠ 0 then
    .error "inconsistency: must be exactly 1 index record for stem output"
  else
    match OutputIDFromBytes (k.drop stemAccountPfx.length) with
    | .error e => .error e
    | .ok id =>
      match getUTXO s id with
      | none => .error "can't find stem output"
      | some bs => .ok (acc.1 + 1, id.slot, bs)

/-- `func (r *Readable) GetStem() (ledger.Slot, []byte)`: iterates the
stem-account index records; returns the (slot, raw output bytes) pair
left by the last iteration (zero slot and nil bytes if there is none). -/
def GetStem (s : StateKV) : Except String (Nat × List Nat) :=
  ((s.keysUnderPfx stemAccountPfx).foldlM (getStemStep s) (0, 0, [])).map
    (fun acc => (acc.2.1, acc.2.2))

/-- `RootRecord` (state.go): the commitment and the chain id are opaque
external types, modelled as `Nat`; the numeric fields are `uint64`
(`NumTransactions` is `uint32`). -/
structure RootRecord where
  root : Nat
  sequencerID : Nat
  ledgerCoverage : Nat
  slotInflation : Nat
  supply : Nat
  numTransactions : Nat
deriving DecidableEq

/-- `RootRecordParams` (state.go). -/
structure RootRecordParams where
  stemOutputID : OutputID
  seqID : Nat
  coverage : Nat
  slotInflation : Nat
  supply : Nat
  numTransactions : Nat

/-- The persistent key/value engine behind `global.StateStore`: trie
key/value data, the root-record partition keyed by branch txid, and the
latest-committed-slot singleton. -/
structure StateStore where
  kv : List (List Nat × List Nat)
  rootRecords : List (List Nat × RootRecord)
  latestSlot : Nat
deriving DecidableEq

/-- A write staged in the store's batched writer. -/
inductive BatchOp where
  | trieKV (k v : List Nat)
  | latestSlot (s : Nat)
  | rootRecord (branchID : List Nat) (rr : RootRecord)
deriving DecidableEq

def applyOp (st : StateStore) : BatchOp → StateStore
  | .trieKV k v =>
    { st with kv := (k, v) :: st.kv.filter (fun p => decide (p.1 ≠ k)) }
  | .latestSlot s => { st with latestSlot := s }
  | .rootRecord id rr =>
    { st with rootRecords := (id, rr) :: st.rootRecords.filter (fun p => decide (p.1 ≠ id)) }

/-- `batch.Commit()`: the single atomic commit of a batched writer — all
staged writes become visible together. -/
def StateStore.commitBatch (st : StateStore) (b : List BatchOp) : StateStore :=
  b.foldl applyOp st

/-- `FetchLatestCommittedSlot` — modelled from the spec: reads the
"latest committed slot" singleton key (the accessor is absent from src/). -/
def FetchLatestCommittedSlot (st : StateStore) : Nat := st.latestSlot

/-- `writeLatestSlot(batch, slot)` — modelled from the spec: stages the
"latest committed slot" singleton write into the batch (absent from src/). -/
def writeLatestSlot (batch : List BatchOp) (s : Nat) : List BatchOp :=
  batch ++ [.latestSlot s]

/-- `writeRootRecord(batch, branchID, rr)` — modelled from the spec:
stages the root record keyed by the branch txid into the batch (absent
from src/). -/
def writeRootRecord (batch : List BatchOp) (branchID : List Nat) (rr : RootRecord) :
    List BatchOp :=
  batch ++ [.rootRecord branchID rr]

/-- Fetch a root record by branch txid from the store. -/
def StateStore.fetchRootRecord (st : StateStore) (branchID : List Nat) : Option RootRecord :=
  (st.rootRecords.find? (fun p => decide (p.1 = branchID))).map Prod.snd

/-- Modelled from the spec: the in-memory updatable trie
(`immutable.TrieUpdatable` of the external unitrie library).  We carry
the commitment the trie will have after commit and the staged key/value
delta; `Commit(batch)` stages the delta into the batch and returns the
new root. -/
structure TrieUpdatable where
  root : Nat
  delta : List (List Nat × List Nat)

def TrieUpdatable.commit (t : TrieUpdatable) (batch : List BatchOp) :
    Nat × List BatchOp :=
  (t.root, batch ++ t.delta.map (fun p => BatchOp.trieKV p.1 p.2))

/-- Modelled from the spec: a batch of mutations together with its
application to the trie (`UpdateTrie` and the mutations module are absent
from src/): applying mutations either fails or yields the updated trie. -/
def Mutations := TrieUpdatable → Except String TrieUpdatable

/-- `func (u *Updatable) updateUTXOLedgerDB(updateFun, rootRecordsParams)`.
The store object survives the call, so the result carries the (possibly
unchanged) store together with either the error or the rebound trie. -/
def updateUTXOLedgerDB (st : StateStore) (trie : TrieUpdatable)
    (updateFun : TrieUpdatable → Except String TrieUpdatable)
    (rootRecordsParams : Option RootRecordParams) :
    StateStore × Except String TrieUpdatable :=
  match updateFun trie with
  | .error e => (st, .error e)
  | .ok trie1 =>
    let rootAndBatch := trie1.commit []
    let newRoot := rootAndBatch.1
    let batch := rootAndBatch.2
    let batch :=
      match rootRecordsParams with
      | none => batch
      | some p =>
        let latestSlot := FetchLatestCommittedSlot st
        let batch :=
          if latestSlot < p.stemOutputID.slot then
            writeLatestSlot batch p.stemOutputID.slot
          else batch
        let branchID := p.stemOutputID.transactionID
        writeRootRecord batch branchID
          { root := newRoot
            sequencerID := p.seqID
            ledgerCoverage := p.coverage
            slotInflation := p.slotInflation
            supply := p.supply
            numTransactions := p.numTransactions }
    (st.commitBatch batch, .ok { root := newRoot, delta := [] })

/-- `func (u *Updatable) Update(muts *Mutations, rootRecordParams *RootRecordParams) error` -/
def Update (st : StateStore) (trie : TrieUpdatable) (muts : Mutations)
    (rootRecordParams : Option RootRecordParams) :
    StateStore × Except String TrieUpdatable :=
  updateUTXOLedgerDB st trie (fun t => muts t) rootRecordParams

/-- Modelled from the spec: branch finalisation computes the root-record
parameters for a branch `b` on top of its predecessor branch `p` with
`supply = prev.supply + slotInflation` in 64-bit unsigned arithmetic (the
attacher's finalisation code is absent from src/). -/
def mkBranchRootRecordParams (prev : RootRecord) (stemOutputID : OutputID)
    (seqID coverage slotInflation numTransactions : Nat) : RootRecordParams :=
  { stemOutputID := stemOutputID
    seqID := seqID
    coverage := coverage
    slotInflation := slotInflation
    supply := (prev.supply + slotInflation) % 2 ^ 64
    numTransactions := numTransactions }

end Proxima.Multistate

namespace Proxima.MultistateSer

/-! ### multistate — root record serialization

`RootRecord.Bytes` and `RootRecordFromBytes` are exercised by the
repository's serialization test (src/unnamed/part_000) but their bodies
are not under src/.  Modelled from the spec: "Per-branch root records
...; value = deterministic encoding of RootRecord", with the record
shape of that test: the ledger coverage is a fixed vector of two 64-bit
values whose component 0 is the latest delta, and `Bytes` asserts
`r.LedgerCoverage.LatestDelta() == 0`. -/

structure LedgerCoverage where
  c0 : Nat
  c1 : Nat
deriving DecidableEq

/-- `LedgerCoverage.LatestDelta()`: component 0 of the vector. -/
def LedgerCoverage.LatestDelta (lc : LedgerCoverage) : Nat := lc.c0

/-- The trie commitment is fixed-width; 32 bytes in this model. -/
def commitmentLength : Nat := 32

/-- `ledger.ChainID` is fixed-width; 32 bytes in this model. -/
def chainIDLength : Nat := 32

structure RootRecord where
  root : List Nat
  sequencerID : List Nat
  ledgerCoverage : LedgerCoverage
  slotInflation : Nat
  supply : Nat
  numTransactions : Nat
deriving DecidableEq

/-- Modelled from the spec: deterministic fixed-width encoding of a root
record; the assertion `r.LedgerCoverage.LatestDelta() == 0` (it panics in
the test's second case) is modelled as `none`. -/
def RootRecord.Bytes (r : RootRecord) : Option (List Nat) :=
  if r.ledgerCoverage.LatestDelta = 0 then
    some (r.root ++ (r.sequencerID ++ (beBytes 8 r.ledgerCoverage.c0 ++
      (beBytes 8 r.ledgerCoverage.c1 ++ (beBytes 8 r.slotInflation ++
      (beBytes 8 r.supply ++ beBytes 4 r.numTransactions))))))
  else none

/-- Modelled from the spec: `RootRecordFromBytes`, the inverse parse of
the fixed-width encoding. -/
def RootRecordFromBytes (data : List Nat) : Except String RootRecord :=
  if data.length = commitmentLength + chainIDLength + 8 + 8 + 8 + 8 + 4 then
    .ok { root := data.take 32
          sequencerID := (data.drop 32).take 32
          ledgerCoverage :=
            { c0 := beToNat ((data.drop 64).take 8)
              c1 := beToNat ((data.drop 72).take 8) }
          slotInflation := beToNat ((data.drop 80).take 8)
          supply := beToNat ((data.drop 88).take 8)
          numTransactions := beToNat ((data.drop 96).take 4) }
  else .error "RootRecordFromBytes: wrong data size"

end Proxima.MultistateSer

namespace Proxima.Peering

/-! ### peering — pull frame (QueryTransactions message) -/

/-- The message-type byte; its concrete value is declared elsewhere in
the repository (not under src/) and is immaterial to the properties
proved here. -/
def PeerMessageTypeQueryTransactions : Nat := 1

/-- `func encodePeerMessageQueryTransactions(txids ...core.TransactionID) []byte`:
type byte, 2-byte big-endian count, then the 32-byte ids.  The assertion
`util.Assertf(len(txids) < math.MaxUint16, ...)` (math.MaxUint16 = 65535)
is modelled as `none`. -/
def encodePeerMessageQueryTransactions (txids : List TransactionID) : Option (List Nat) :=
  if txids.length < 2 ^ 16 - 1 then
    some (PeerMessageTypeQueryTransactions ::
      (beBytes 2 txids.length ++ (txids.map Subtype.val).flatten))
  else none

/-- The read loop of `decodePeerMessageQueryTransactions`: reads `n`
txids of `core.TransactionIDLength` bytes each; a short read is an
error. -/
def readTxids : Nat → List Nat → Except String (List TransactionID)
  | 0, _ => .ok []
  | n + 1, rest =>
    if h : (rest.take TransactionIDLength).length = TransactionIDLength then
      match readTxids n (rest.drop TransactionIDLength) with
      | .error e => .error e
      | .ok tl => .ok (⟨rest.take TransactionIDLength, h⟩ :: tl)
    else .error "DecodePeerMessageQueryTransactions: wrong msg data"

/-- `func decodePeerMessageQueryTransactions(data []byte) ([]core.TransactionID, error)` -/
def decodePeerMessageQueryTransactions (data : List Nat) :
    Except String (List TransactionID) :=
  if data.length < 3 ∨ data.getD 0 0 ≠ PeerMessageTypeQueryTransactions then
    .error "not a QueryTransactions message"
  else
    readTxids (beToNat ((data.drop 1).take 2)) (data.drop 3)

end Proxima.Peering

namespace Proxima

/-- A concrete transaction id, used to instantiate universally quantified
statements. -/
def sampleTxID : TransactionID :=
  ⟨List.replicate TransactionIDLength 0, List.length_replicate ..⟩

/-- A second concrete transaction id. -/
def sampleTxID2 : TransactionID :=
  ⟨1 :: List.replicate (TransactionIDLength - 1) 7, by simp [TransactionIDLength]⟩

/-- A concrete output id (transaction id plus index byte 0). -/
def sampleOutputID : OutputID :=
  ⟨sampleTxID.val ++ [0], by simp [sampleTxID, OutputIDLength, TransactionIDLength]⟩

/-- A second concrete output id, with a non-zero slot prefix. -/
def sampleOutputID2 : OutputID :=
  ⟨sampleTxID2.val ++ [0], by simp [sampleTxID2, OutputIDLength, TransactionIDLength]⟩

/-- A concrete state holding exactly one stem index record together with
its resolvable UTXO. -/
def sampleStemState : Multistate.StateKV :=
  ⟨[(Multistate.stemAccountPfx ++ sampleOutputID.val, [1]),
    (Multistate.PartitionLedgerState :: sampleOutputID.val, [9, 9])]⟩

end Proxima

namespace Proxima

/-! ## Helper lemmas -/

theorem length_beBytes (w n : Nat) : (beBytes w n).length = w := by
  induction w generalizing n with
  | zero => rfl
  | succ w ih => simp [beBytes, ih]

theorem beToNat_append_singleton (l : List Nat) (b : Nat) :
    beToNat (l ++ [b]) = beToNat l * 256 + b := by
  simp [beToNat, List.foldl_append]

theorem beToNat_beBytes (w n : Nat) : beToNat (beBytes w n) = n % 256 ^ w := by
  induction w generalizing n with
  | zero => simp [beBytes, beToNat, Nat.mod_one]
  | succ w ih =>
    rw [beBytes, beToNat_append_singleton, ih]
    rw [pow_succ, mul_comm (256 ^ w) 256, Nat.mod_mul]
    ring

theorem beToNat_beBytes_of_lt (w n : Nat) (h : n < 256 ^ w) :
    beToNat (beBytes w n) = n := by
  rw [beToNat_beBytes, Nat.mod_eq_of_lt h]

theorem or_and_self_eq (f fl : Nat) : (f ||| fl) &&& fl = fl := by
  apply Nat.eq_of_testBit_eq
  intro j
  simp only [Nat.testBit_and, Nat.testBit_or]
  cases hf : f.testBit j <;> cases hl : fl.testBit j <;> simp [hf, hl]

theorem or_preserves_and (f fl b : Nat) (h : f &&& b = b) :
    (f ||| fl) &&& b = b := by
  apply Nat.eq_of_testBit_eq
  intro j
  have hj : (f &&& b).testBit j = b.testBit j := by rw [h]
  simp only [Nat.testBit_and, Nat.testBit_or] at hj ⊢
  cases hf : f.testBit j <;> cases hb : b.testBit j <;>
    simp_all

/-! ## Claims -/

/-- C7: Vertex and attacher flags are monotone: for all flag values `f`
and `fl`, after `SetFlagsUp fl` the value is `f ||| fl`, so every bit
that was set stays set and `FlagsUp fl` holds afterwards; the one
mutating operation on `Flags` never clears a set bit, and the attacher's
`FlagsUp` agrees with the vertex one. -/
theorem C7_flags_monotone (f fl i b : Nat) :
    Vertex.SetFlagsUp f fl = f ||| fl
    ∧ (Nat.testBit f i = true → Nat.testBit (Vertex.SetFlagsUp f fl) i = true)
    ∧ Vertex.FlagsUp (Vertex.SetFlagsUp f fl) fl = true
    ∧ (Vertex.FlagsUp f b = true → Vertex.FlagsUp (Vertex.SetFlagsUp f fl) b = true)
    ∧ Attacher.FlagsUp f b = Vertex.FlagsUp f b := by
  refine ⟨rfl, ?_, ?_, ?_, rfl⟩
  · intro h
    simp [Vertex.SetFlagsUp, Nat.testBit_or, h]
  · simp [Vertex.FlagsUp, Vertex.SetFlagsUp, or_and_self_eq]
  · intro h
    simp only [Vertex.FlagsUp, beq_iff_eq] at h ⊢
    exact or_preserves_and f fl b h

/-- C7 witness: the statement instantiated at `f = 5`, `fl = 3`, bit 0. -/
theorem C7_flags_monotone_witness :
    Vertex.SetFlagsUp 5 3 = 5 ||| 3
    ∧ Nat.testBit (Vertex.SetFlagsUp 5 3) 0 = true
    ∧ Vertex.FlagsUp (Vertex.SetFlagsUp 5 3) 3 = true
    ∧ Vertex.FlagsUp (Vertex.SetFlagsUp 5 3) 4 = true :=
  ⟨(C7_flags_monotone 5 3 0 4).1,
   (C7_flags_monotone 5 3 0 4).2.1 (by decide),
   (C7_flags_monotone 5 3 0 4).2.2.1,
   (C7_flags_monotone 5 3 0 4).2.2.2.1 (by decide)⟩

set_option maxRecDepth 4096 in
/-- C3: a heartbeat frame is 9 bytes (8-byte big-endian unix-nano clock +
1 flags byte) and decoding rejects other lengths, and bit 0 (value 1) is
the ignores-all-pulls flag; but the static-peers-only flag is written as
`0x00000010` = 16 (bit 4), not bit 1 (value 2) as the claim states: a
node with only that flag set produces flags byte 16, whose bit 1 is
clear, and a frame carrying flags byte 2 decodes with the field false. -/
theorem C3_heartbeat_frame :
    Peering.flagIgnoresAllPullRequests = 1
    ∧ Peering.flagAcceptsPullRequestsFromStaticPeersOnly = 16
    ∧ Peering.heartbeatInfo.flags ⟨0, false, true⟩ = 16
    ∧ Nat.testBit (Peering.heartbeatInfo.flags ⟨0, false, true⟩) 1 = false
    ∧ Peering.heartbeatInfo.flags ⟨0, true, false⟩ = 1
    ∧ (Peering.heartbeatInfo.Bytes ⟨0, false, true⟩).length = 9
    ∧ Peering.heartbeatInfoFromBytes (List.replicate 10 0)
        = .error "heartbeatInfoFromBytes: wrong data len"
    ∧ Peering.heartbeatInfoFromBytes (List.replicate 8 0)
        = .error "heartbeatInfoFromBytes: wrong data len"
    ∧ Peering.heartbeatInfoFromBytes [0, 0, 0, 0, 0, 0, 0, 0, 2]
        = .ok ⟨0, false, false⟩
    ∧ Peering.heartbeatInfoFromBytes (Peering.heartbeatInfo.Bytes ⟨0, false, true⟩)
        = .ok ⟨0, false, true⟩ :=
  ⟨rfl, rfl, rfl, rfl, rfl, rfl, rfl, rfl, rfl, rfl⟩

theorem maturedPullList_spec (now : Nat) (pl : PullClient.PullList) :
    PullClient.maturedPullList now pl
      = ((pl.filter fun p => decide (now > p.2.nextDeadline)).map Prod.fst,
         pl.map (fun p =>
           if now > p.2.nextDeadline then
             (p.1, { start := p.2.start, nextDeadline := now + PullClient.pullPeriod })
           else p),
         (pl.filter fun p => decide (now > p.2.nextDeadline)).any
           (fun p => decide (now - p.2.start >
             PullClient.pullPeriod * PullClient.startPullingFromAllAfterNumRandomPulls))) := by
  induction pl with
  | nil => rfl
  | cons p rest ih =>
    simp only [PullClient.maturedPullList, ih]
    by_cases h : now > p.2.nextDeadline
    · rw [List.filter_cons_of_pos (by simpa using h)]
      simp only [List.map_cons, List.any_cons, if_pos h, Prod.mk.injEq, true_and]
      exact Bool.or_comm _ _
    · rw [List.filter_cons_of_neg (by simpa using h)]
      simp only [List.map_cons, if_neg h]

/-- C2: one iteration of the background pull loop (period 50 ms) selects
exactly the pull-list entries whose `nextDeadline` has passed, resets
each selected entry's deadline to `now + 500 ms` keeping its start,
leaves the others untouched, and sends the whole selected batch to all
peers when at least one selected entry's start is older than 10 × 500 ms
and to one random peer otherwise. -/
theorem C2_background_pull_loop (now : Nat) (pl : PullClient.PullList) :
    PullClient.pullLoopPeriod = 50
    ∧ PullClient.pullPeriod = 500
    ∧ PullClient.pullPeriod * PullClient.startPullingFromAllAfterNumRandomPulls = 10 * 500
    ∧ (PullClient.maturedPullList now pl).1
        = (pl.filter fun p => decide (now > p.2.nextDeadline)).map Prod.fst
    ∧ (PullClient.maturedPullList now pl).2.1
        = pl.map (fun p =>
            if now > p.2.nextDeadline then
              (p.1, { start := p.2.start, nextDeadline := now + PullClient.pullPeriod })
            else p)
    ∧ (PullClient.maturedPullList now pl).2.2
        = (pl.filter fun p => decide (now > p.2.nextDeadline)).any
            (fun p => decide (now - p.2.start > 10 * 500))
    ∧ PullClient.backgroundPullStep now pl
        = ((PullClient.maturedPullList now pl).2.1,
           if (PullClient.maturedPullList now pl).1 = [] then []
           else if (PullClient.maturedPullList now pl).2.2 then
             [.pullFromAllPeers (PullClient.maturedPullList now pl).1]
           else
             [.pullFromRandomPeer (PullClient.maturedPullList now pl).1]) := by
  refine ⟨rfl, rfl, rfl, ?_, ?_, ?_, ?_⟩
  · rw [maturedPullList_spec]
  · rw [maturedPullList_spec]
  · rw [maturedPullList_spec]
    rfl
  · rcases hm : PullClient.maturedPullList now pl with ⟨buf, newPl, stuck⟩
    rw [PullClient.backgroundPullStep, hm]
    by_cases hb : buf = []
    · subst hb
      simp
    · have hlen : 0 < buf.length := List.length_pos.mpr hb
      cases stuck <;> simp [hlen, hb]

/-- C8: when the pull client processes a pull for a txid not in its pull
list: if the tx-bytes store has the bytes, they are re-injected into the
workflow and no entry is added; otherwise an entry with `start = now` and
`nextDeadline = now + 500 ms` is added and exactly one pull request goes
to one random peer. -/
theorem C8_start_pulling (txStore : TransactionID → List Nat) (now : Nat)
    (pl : PullClient.PullList) (txid : TransactionID)
    (h : pl.lookup txid = none) :
    (txStore txid ≠ [] →
      PullClient.startPulling txStore now pl txid
        = (pl, [.transactionIn (txStore txid)]))
    ∧ (txStore txid = [] →
      PullClient.startPulling txStore now pl txid
        = ((txid, { start := now, nextDeadline := now + PullClient.pullPeriod }) :: pl,
           [.pullFromRandomPeer [txid]])) := by
  constructor
  · intro hbytes
    rw [PullClient.startPulling, h]
    simp [List.length_pos, hbytes]
  · intro hbytes
    rw [PullClient.startPulling, h]
    simp [hbytes]

/-- C8 witness: empty pull list and empty tx store at a concrete txid. -/
theorem C8_start_pulling_witness :
    PullClient.PullList.lookup [] sampleTxID = none
    ∧ PullClient.startPulling (fun _ => []) 0 [] sampleTxID
        = ([(sampleTxID, { start := 0, nextDeadline := 0 + PullClient.pullPeriod })],
           [.pullFromRandomPeer [sampleTxID]]) :=
  ⟨rfl, (C8_start_pulling (fun _ => []) 0 [] sampleTxID rfl).2 rfl⟩

/-- C10: starting a pull is idempotent: for a txid already in the pull
list, `startPulling` returns immediately, the pull list (hence the
entry's original start and deadline) is unchanged, no duplicate entry is
created, and no peer query or re-injection is issued. -/
theorem C10_start_pulling_idempotent (txStore : TransactionID → List Nat)
    (now : Nat) (pl : PullClient.PullList) (txid : TransactionID)
    (rec : PullClient.pullRecord) (h : pl.lookup txid = some rec) :
    PullClient.startPulling txStore now pl txid = (pl, [])
    ∧ (PullClient.startPulling txStore now pl txid).1.lookup txid = some rec := by
  have hr : PullClient.startPulling txStore now pl txid = (pl, []) := by
    rw [PullClient.startPulling, h]
    rfl
  exact ⟨hr, by rw [hr]; exact h⟩

/-- C10 witness: a one-element pull list at its own key. -/
theorem C10_start_pulling_idempotent_witness :
    PullClient.PullList.lookup
        [(sampleTxID, { start := 1, nextDeadline := 2 })] sampleTxID
      = some { start := 1, nextDeadline := 2 }
    ∧ PullClient.startPulling (fun _ => []) 7
        [(sampleTxID, { start := 1, nextDeadline := 2 })] sampleTxID
      = ([(sampleTxID, { start := 1, nextDeadline := 2 })], []) :=
  ⟨by decide,
   (C10_start_pulling_idempotent (fun _ => []) 7
      [(sampleTxID, { start := 1, nextDeadline := 2 })] sampleTxID
      { start := 1, nextDeadline := 2 } (by decide)).1⟩

theorem int64_roundtrip (i : Int) (h1 : -(2 ^ 63) ≤ i) (h2 : i < 2 ^ 63) :
    Peering.int64OfUint64 (Peering.uint64OfInt64 i) = i
    ∧ Peering.uint64OfInt64 i < 2 ^ 64 := by
  unfold Peering.int64OfUint64 Peering.uint64OfInt64
  constructor
  · split <;> omega
  · omega

theorem heartbeatInfo_roundtrip (hi : Peering.heartbeatInfo)
    (h1 : -(2 ^ 63) ≤ hi.clock) (h2 : hi.clock < 2 ^ 63) :
    Peering.heartbeatInfoFromBytes hi.Bytes = .ok hi := by
  obtain ⟨c, i, a⟩ := hi
  obtain ⟨hrt, hlt⟩ := int64_roundtrip c h1 h2
  have hlen8 : (beBytes 8 (Peering.uint64OfInt64 c)).length = 8 := length_beBytes ..
  have hlen : (Peering.heartbeatInfo.Bytes ⟨c, i, a⟩).length = 9 := by
    simp [Peering.heartbeatInfo.Bytes, hlen8]
  rw [Peering.heartbeatInfoFromBytes, if_neg (by simp [hlen])]
  have htake : (Peering.heartbeatInfo.Bytes ⟨c, i, a⟩).take 8
      = beBytes 8 (Peering.uint64OfInt64 c) := by
    rw [Peering.heartbeatInfo.Bytes]
    exact List.take_left' hlen8
  have hgetD : (Peering.heartbeatInfo.Bytes ⟨c, i, a⟩).getD 8 0
      = Peering.heartbeatInfo.flags ⟨c, i, a⟩ := by
    rw [Peering.heartbeatInfo.Bytes]
    simp [List.getD, List.getElem?_append_right, hlen8]
  rw [htake, hgetD, beToNat_beBytes_of_lt 8 _ (by norm_num at hlt ⊢; exact hlt), hrt]
  cases i <;> cases a <;>
    simp [Peering.heartbeatInfo.setFromFlags, Peering.heartbeatInfo.flags,
      Peering.flagIgnoresAllPullRequests, Peering.flagAcceptsPullRequestsFromStaticPeersOnly]

theorem readTxids_flatten (txids : List TransactionID) :
    Peering.readTxids txids.length (txids.map Subtype.val).flatten = .ok txids := by
  induction txids with
  | nil => rfl
  | cons t tl ih =>
    simp only [List.map_cons, List.flatten_cons, List.length_cons]
    rw [Peering.readTxids]
    rw [List.take_left' t.property, List.drop_left' t.property]
    rw [dif_pos t.property, ih]

theorem queryTx_roundtrip (txids : List TransactionID)
    (h : txids.length < 2 ^ 16 - 1) :
    Peering.encodePeerMessageQueryTransactions txids
      = some (Peering.PeerMessageTypeQueryTransactions ::
          (beBytes 2 txids.length ++ (txids.map Subtype.val).flatten))
    ∧ Peering.decodePeerMessageQueryTransactions
        (Peering.PeerMessageTypeQueryTransactions ::
          (beBytes 2 txids.length ++ (txids.map Subtype.val).flatten))
      = .ok txids := by
  have hlen2 : (beBytes 2 txids.length).length = 2 := length_beBytes ..
  constructor
  · rw [Peering.encodePeerMessageQueryTransactions, if_pos h]
  · rw [Peering.decodePeerMessageQueryTransactions, if_neg]
    · have hdrop1 : (Peering.PeerMessageTypeQueryTransactions ::
          (beBytes 2 txids.length ++ (txids.map Subtype.val).flatten)).drop 1
          = beBytes 2 txids.length ++ (txids.map Subtype.val).flatten := rfl
      rw [hdrop1, List.take_left' hlen2]
      rw [beToNat_beBytes_of_lt 2 _ (by norm_num at h ⊢; omega)]
      have hdrop3 : (Peering.PeerMessageTypeQueryTransactions ::
          (beBytes 2 txids.length ++ (txids.map Subtype.val).flatten)).drop 3
          = (txids.map Subtype.val).flatten := by
        show (beBytes 2 txids.length ++ (txids.map Subtype.val).flatten).drop 2
          = (txids.map Subtype.val).flatten
        exact List.drop_left' hlen2
      rw [hdrop3]
      exact readTxids_flatten txids
    · push_neg
      constructor
      · simp [List.length_cons, List.length_append, hlen2]
      · rfl

theorem rootRecord_roundtrip (rr : MultistateSer.RootRecord)
    (h0 : rr.ledgerCoverage.LatestDelta = 0)
    (h1 : rr.root.length = 32) (h2 : rr.sequencerID.length = 32)
    (h4 : rr.ledgerCoverage.c1 < 2 ^ 64) (h5 : rr.slotInflation < 2 ^ 64)
    (h6 : rr.supply < 2 ^ 64) (h7 : rr.numTransactions < 2 ^ 32) :
    ∃ bs, rr.Bytes = some bs ∧ MultistateSer.RootRecordFromBytes bs = .ok rr := by
  obtain ⟨rt, sq, ⟨c0, c1⟩, si, su, nt⟩ := rr
  simp only [MultistateSer.LedgerCoverage.LatestDelta] at h0
  simp only at h1 h2 h4 h5 h6 h7
  subst h0
  set r5 := beBytes 8 su ++ beBytes 4 nt with hr5
  set r4 := beBytes 8 si ++ r5 with hr4
  set r3 := beBytes 8 c1 ++ r4 with hr3
  set r2 := beBytes 8 0 ++ r3 with hr2
  set r1 := sq ++ r2 with hr1
  set data := rt ++ r1 with hdata
  have d32 : data.drop 32 = r1 := List.drop_left' h1
  have t32 : data.take 32 = rt := List.take_left' h1
  have d64 : data.drop 64 = r2 := by
    have : data.drop 64 = (data.drop 32).drop 32 := by
      rw [List.drop_drop]
    rw [this, d32, hr1]
    exact List.drop_left' h2
  have t64 : (data.drop 64).take 8 = beBytes 8 0 := by
    rw [d64, hr2]
    exact List.take_left' (length_beBytes ..)
  have s64 : (data.drop 32).take 32 = sq := by
    rw [d32, hr1]
    exact List.take_left' h2
  have d72 : data.drop 72 = r3 := by
    have : data.drop 72 = (data.drop 64).drop 8 := by
      rw [List.drop_drop]
    rw [this, d64, hr2]
    exact List.drop_left' (length_beBytes ..)
  have t72 : (data.drop 72).take 8 = beBytes 8 c1 := by
    rw [d72, hr3]
    exact List.take_left' (length_beBytes ..)
  have d80 : data.drop 80 = r4 := by
    have : data.drop 80 = (data.drop 72).drop 8 := by
      rw [List.drop_drop]
    rw [this, d72, hr3]
    exact List.drop_left' (length_beBytes ..)
  have t80 : (data.drop 80).take 8 = beBytes 8 si := by
    rw [d80, hr4]
    exact List.take_left' (length_beBytes ..)
  have d88 : data.drop 88 = r5 := by
    have : data.drop 88 = (data.drop 80).drop 8 := by
      rw [List.drop_drop]
    rw [this, d80, hr4]
    exact List.drop_left' (length_beBytes ..)
  have t88 : (data.drop 88).take 8 = beBytes 8 su := by
    rw [d88, hr5]
    exact List.take_left' (length_beBytes ..)
  have d96 : data.drop 96 = beBytes 4 nt := by
    have : data.drop 96 = (data.drop 88).drop 8 := by
      rw [List.drop_drop]
    rw [this, d88, hr5]
    exact List.drop_left' (length_beBytes ..)
  have t96 : (data.drop 96).take 4 = beBytes 4 nt := by
    rw [d96]
    exact List.take_of_length_le (by rw [length_beBytes])
  have hlen : data.length
      = MultistateSer.commitmentLength + MultistateSer.chainIDLength + 8 + 8 + 8 + 8 + 4 := by
    simp [hdata, hr1, hr2, hr3, hr4, hr5, List.length_append, length_beBytes, h1, h2,
      MultistateSer.commitmentLength, MultistateSer.chainIDLength]
  refine ⟨data, ?_, ?_⟩
  · rw [MultistateSer.RootRecord.Bytes]
    simp only [MultistateSer.LedgerCoverage.LatestDelta]
    rw [if_pos trivial, hdata, hr1, hr2, hr3, hr4, hr5]
  rw [MultistateSer.RootRecordFromBytes, if_pos hlen]
  rw [t32, s64, t64, t72, t80, t88, t96]
  rw [beToNat_beBytes_of_lt 8 0 (by positivity)]
  rw [beToNat_beBytes_of_lt 8 c1 (by norm_num at h4 ⊢; exact h4)]
  rw [beToNat_beBytes_of_lt 8 si (by norm_num at h5 ⊢; exact h5)]
  rw [beToNat_beBytes_of_lt 8 su (by norm_num at h6 ⊢; exact h6)]
  rw [beToNat_beBytes_of_lt 4 nt (by norm_num at h7 ⊢; exact h7)]

/-- C4 counterexample: a list of exactly 65535 transaction IDs has fewer
than 2^16 elements, yet `encodePeerMessageQueryTransactions` panics on it
(the source asserts `len(txids) < math.MaxUint16`, i.e. < 65535), so
encode-then-decode does not return the list. -/
theorem C4_roundtrip_counterexample :
    (List.replicate 65535 sampleTxID).length < 2 ^ 16
    ∧ Peering.encodePeerMessageQueryTransactions (List.replicate 65535 sampleTxID)
        = none := by
  have h : ¬((List.replicate 65535 sampleTxID).length < 2 ^ 16 - 1) := by
    rw [List.length_replicate]
    norm_num
  constructor
  · rw [List.length_replicate]
    norm_num
  · rw [Peering.encodePeerMessageQueryTransactions, if_neg h]

/-- C4 (amended): encoding then decoding is the identity: a RootRecord
with zero ledger-coverage latest delta round-trips through
`Bytes`/`RootRecordFromBytes`; every heartbeatInfo round-trips through
`Bytes`/`heartbeatInfoFromBytes` with equal clock and flags; and every
list of fewer than 2^16 − 1 transaction IDs (the encoder asserts
`len(txids) < math.MaxUint16 = 65535`) round-trips through
`encodePeerMessageQueryTransactions`/`decodePeerMessageQueryTransactions`
in the same order. -/
theorem C4_encode_decode_roundtrip (rr : MultistateSer.RootRecord)
    (hi : Peering.heartbeatInfo) (txids : List TransactionID)
    (h0 : rr.ledgerCoverage.LatestDelta = 0)
    (h1 : rr.root.length = 32) (h2 : rr.sequencerID.length = 32)
    (h4 : rr.ledgerCoverage.c1 < 2 ^ 64) (h5 : rr.slotInflation < 2 ^ 64)
    (h6 : rr.supply < 2 ^ 64) (h7 : rr.numTransactions < 2 ^ 32)
    (hc1 : -(2 ^ 63) ≤ hi.clock) (hc2 : hi.clock < 2 ^ 63)
    (ht : txids.length < 2 ^ 16 - 1) :
    (∃ bs, rr.Bytes = some bs ∧ MultistateSer.RootRecordFromBytes bs = .ok rr)
    ∧ Peering.heartbeatInfoFromBytes hi.Bytes = .ok hi
    ∧ (∃ bs, Peering.encodePeerMessageQueryTransactions txids = some bs
        ∧ Peering.decodePeerMessageQueryTransactions bs = .ok txids) :=
  ⟨rootRecord_roundtrip rr h0 h1 h2 h4 h5 h6 h7,
   heartbeatInfo_roundtrip hi hc1 hc2,
   ⟨_, (queryTx_roundtrip txids ht).1, (queryTx_roundtrip txids ht).2⟩⟩

/-- C4 witness: the amended round-trip instantiated at a concrete root
record, heartbeat, and a one-element txid list. -/
theorem C4_encode_decode_roundtrip_witness :
    (∃ bs, MultistateSer.RootRecord.Bytes
        ⟨List.replicate 32 3, List.replicate 32 4, ⟨0, 1337⟩, 5, 9, 2⟩ = some bs
      ∧ MultistateSer.RootRecordFromBytes bs
          = .ok ⟨List.replicate 32 3, List.replicate 32 4, ⟨0, 1337⟩, 5, 9, 2⟩)
    ∧ Peering.heartbeatInfoFromBytes
        (Peering.heartbeatInfo.Bytes ⟨-42, true, false⟩) = .ok ⟨-42, true, false⟩
    ∧ (∃ bs, Peering.encodePeerMessageQueryTransactions [sampleTxID2] = some bs
        ∧ Peering.decodePeerMessageQueryTransactions bs = .ok [sampleTxID2]) :=
  C4_encode_decode_roundtrip
    ⟨List.replicate 32 3, List.replicate 32 4, ⟨0, 1337⟩, 5, 9, 2⟩
    ⟨-42, true, false⟩ [sampleTxID2]
    rfl (by simp) (by simp) (by norm_num) (by norm_num) (by norm_num) (by norm_num)
    (by norm_num) (by norm_num) (by norm_num)

theorem commitBatch_append (st : Multistate.StateStore) (b1 b2 : List Multistate.BatchOp) :
    st.commitBatch (b1 ++ b2) = (st.commitBatch b1).commitBatch b2 :=
  List.foldl_append ..

theorem commitBatch_trieKV_proj (l : List (List Nat × List Nat))
    (st : Multistate.StateStore) :
    (st.commitBatch (l.map fun p => Multistate.BatchOp.trieKV p.1 p.2)).latestSlot
        = st.latestSlot
    ∧ (st.commitBatch (l.map fun p => Multistate.BatchOp.trieKV p.1 p.2)).rootRecords
        = st.rootRecords := by
  induction l generalizing st with
  | nil => exact ⟨rfl, rfl⟩
  | cons p tl ih =>
    simp only [List.map_cons, Multistate.StateStore.commitBatch, List.foldl_cons]
    exact ih _

theorem fetchRootRecord_commit_last (st : Multistate.StateStore)
    (pre : List Multistate.BatchOp) (id : List Nat) (rr : Multistate.RootRecord) :
    (st.commitBatch (pre ++ [Multistate.BatchOp.rootRecord id rr])).fetchRootRecord id
      = some rr := by
  rw [commitBatch_append]
  simp [Multistate.StateStore.commitBatch, Multistate.applyOp,
    Multistate.StateStore.fetchRootRecord]

/-- C1: `Update` is all-or-nothing: if applying the mutations to the trie
fails, the error is returned and the persistent store is unchanged; if it
succeeds, there is one batch — containing the whole trie delta, the root
record (when root-record parameters are given) and the latest-slot marker
(exactly when the new slot is greater) — whose single atomic commit
produces the new store, so no execution leaves a root record without its
trie delta or vice versa. -/
theorem C1_update_atomic (st : Multistate.StateStore) (trie : Multistate.TrieUpdatable)
    (muts : Multistate.Mutations) (p : Option Multistate.RootRecordParams) :
    (∀ e, muts trie = .error e →
      Multistate.Update st trie muts p = (st, .error e))
    ∧ (∀ t1, muts trie = .ok t1 →
      ∃ batch,
        Multistate.Update st trie muts p
          = (st.commitBatch batch, .ok { root := t1.root, delta := [] })
        ∧ (∀ k v, (k, v) ∈ t1.delta → Multistate.BatchOp.trieKV k v ∈ batch)
        ∧ (∀ pp, p = some pp →
            Multistate.BatchOp.rootRecord pp.stemOutputID.transactionID
                ⟨t1.root, pp.seqID, pp.coverage, pp.slotInflation, pp.supply,
                  pp.numTransactions⟩ ∈ batch
            ∧ ((Multistate.BatchOp.latestSlot pp.stemOutputID.slot ∈ batch)
                ↔ st.latestSlot < pp.stemOutputID.slot)
            ∧ (st.commitBatch batch).fetchRootRecord pp.stemOutputID.transactionID
                = some ⟨t1.root, pp.seqID, pp.coverage, pp.slotInflation, pp.supply,
                    pp.numTransactions⟩)) := by
  constructor
  · intro e he
    simp only [Multistate.Update, Multistate.updateUTXOLedgerDB, he]
  · intro t1 ht1
    cases p with
    | none =>
      refine ⟨t1.delta.map fun q => Multistate.BatchOp.trieKV q.1 q.2, ?_, ?_, ?_⟩
      · simp only [Multistate.Update, Multistate.updateUTXOLedgerDB, ht1,
          Multistate.TrieUpdatable.commit, List.nil_append]
      · intro k v hkv
        exact List.mem_map_of_mem _ hkv
      · intro pp hpp
        exact absurd hpp (by simp)
    | some pp =>
      refine ⟨((t1.delta.map fun q => Multistate.BatchOp.trieKV q.1 q.2)
          ++ (if Multistate.FetchLatestCommittedSlot st < pp.stemOutputID.slot then
                [Multistate.BatchOp.latestSlot pp.stemOutputID.slot] else []))
          ++ [Multistate.BatchOp.rootRecord pp.stemOutputID.transactionID
                ⟨t1.root, pp.seqID, pp.coverage, pp.slotInflation, pp.supply,
                  pp.numTransactions⟩], ?_, ?_, ?_⟩
      · simp only [Multistate.Update, Multistate.updateUTXOLedgerDB, ht1,
          Multistate.TrieUpdatable.commit, List.nil_append,
          Multistate.writeLatestSlot, Multistate.writeRootRecord]
        split
        · rfl
        · rw [List.append_nil]
      · intro k v hkv
        simp only [List.mem_append]
        exact Or.inl (Or.inl (List.mem_map_of_mem _ hkv))
      · intro pp' hpp'
        obtain rfl : pp = pp' := by cases hpp' ; rfl
        refine ⟨by simp, ?_, fetchRootRecord_commit_last ..⟩
        constructor
        · intro hmem
          simp only [List.mem_append] at hmem
          rcases hmem with (hmem | hmem) | hmem
          · obtain ⟨q, _, hq⟩ := List.mem_map.mp hmem
            cases hq
          · by_cases hlt : Multistate.FetchLatestCommittedSlot st < pp.stemOutputID.slot
            · exact hlt
            · rw [if_neg hlt] at hmem
              cases hmem
          · simp at hmem
        · intro hlt
          rw [if_pos (show Multistate.FetchLatestCommittedSlot st
            < pp.stemOutputID.slot from hlt)]
          simp

/-- C1 witness: identity mutations on a singleton trie delta over the
empty store, with concrete root-record parameters. -/
theorem C1_update_atomic_witness :
    ∃ batch,
      Multistate.Update ⟨[], [], 0⟩ ⟨7, [([1], [2])]⟩ (fun t => Except.ok t)
          (some ⟨sampleOutputID, 3, 4, 5, 6, 2⟩)
        = (Multistate.StateStore.commitBatch ⟨[], [], 0⟩ batch, Except.ok ⟨7, []⟩)
      ∧ (∀ k v, (k, v) ∈ ([([1], [2])] : List (List Nat × List Nat)) →
          Multistate.BatchOp.trieKV k v ∈ batch)
      ∧ (∀ pp, (some (⟨sampleOutputID, 3, 4, 5, 6, 2⟩ : Multistate.RootRecordParams)
            = some pp) →
          Multistate.BatchOp.rootRecord pp.stemOutputID.transactionID
              ⟨7, pp.seqID, pp.coverage, pp.slotInflation, pp.supply,
                pp.numTransactions⟩ ∈ batch
          ∧ ((Multistate.BatchOp.latestSlot pp.stemOutputID.slot ∈ batch)
              ↔ (0 : Nat) < pp.stemOutputID.slot)
          ∧ (Multistate.StateStore.commitBatch ⟨[], [], 0⟩ batch).fetchRootRecord
                pp.stemOutputID.transactionID
              = some ⟨7, pp.seqID, pp.coverage, pp.slotInflation, pp.supply,
                  pp.numTransactions⟩) :=
  (C1_update_atomic ⟨[], [], 0⟩ ⟨7, [([1], [2])]⟩ (fun t => Except.ok t)
      (some ⟨sampleOutputID, 3, 4, 5, 6, 2⟩)).2 ⟨7, [([1], [2])]⟩ rfl

/-- C5: the root record persisted for a branch built on predecessor
branch record `prev` carries `supply = prev.supply + slotInflation` in
64-bit unsigned arithmetic. -/
theorem C5_supply_identity (st : Multistate.StateStore) (trie : Multistate.TrieUpdatable)
    (muts : Multistate.Mutations) (t1 : Multistate.TrieUpdatable)
    (prev : Multistate.RootRecord) (stemOut : OutputID)
    (seqID coverage slotInflation numTx : Nat) (h : muts trie = .ok t1) :
    ((Multistate.Update st trie muts
        (some (Multistate.mkBranchRootRecordParams prev stemOut seqID coverage
          slotInflation numTx))).1).fetchRootRecord stemOut.transactionID
      = some ⟨t1.root, seqID, coverage, slotInflation,
          (prev.supply + slotInflation) % 2 ^ 64, numTx⟩ := by
  simp only [Multistate.Update, Multistate.updateUTXOLedgerDB, h,
    Multistate.TrieUpdatable.commit, List.nil_append, Multistate.writeLatestSlot,
    Multistate.writeRootRecord, Multistate.mkBranchRootRecordParams]
  exact fetchRootRecord_commit_last ..

/-- C5 witness: a concrete branch commit on the empty store with
predecessor supply 10 and slot inflation 6. -/
theorem C5_supply_identity_witness :
    ((Multistate.Update ⟨[], [], 0⟩ ⟨7, []⟩ (fun t => Except.ok t)
        (some (Multistate.mkBranchRootRecordParams ⟨1, 2, 3, 4, 10, 5⟩ sampleOutputID
          3 4 6 2))).1).fetchRootRecord sampleOutputID.transactionID
      = some ⟨7, 3, 4, 6, (10 + 6) % 2 ^ 64, 2⟩ :=
  C5_supply_identity ⟨[], [], 0⟩ ⟨7, []⟩ (fun t => Except.ok t) ⟨7, []⟩
    ⟨1, 2, 3, 4, 10, 5⟩ sampleOutputID 3 4 6 2 rfl

/-- C6: a successful `Update` rewrites the latest-committed-slot value
only when the new branch's stem-output slot is strictly greater than the
stored one, leaves it unchanged otherwise (and when no root-record
parameters are given), so the value never decreases. -/
theorem C6_latest_slot_monotone (st : Multistate.StateStore)
    (trie : Multistate.TrieUpdatable) (muts : Multistate.Mutations)
    (p : Option Multistate.RootRecordParams) (t1 : Multistate.TrieUpdatable)
    (h : muts trie = .ok t1) :
    ((Multistate.Update st trie muts p).1.latestSlot
      = match p with
        | none => st.latestSlot
        | some pp =>
          if st.latestSlot < pp.stemOutputID.slot then pp.stemOutputID.slot
          else st.latestSlot)
    ∧ st.latestSlot ≤ (Multistate.Update st trie muts p).1.latestSlot := by
  have hmain : (Multistate.Update st trie muts p).1.latestSlot
      = match p with
        | none => st.latestSlot
        | some pp =>
          if st.latestSlot < pp.stemOutputID.slot then pp.stemOutputID.slot
          else st.latestSlot := by
    cases p with
    | none =>
      simp only [Multistate.Update, Multistate.updateUTXOLedgerDB, h,
        Multistate.TrieUpdatable.commit, List.nil_append]
      exact (commitBatch_trieKV_proj t1.delta st).1
    | some pp =>
      simp only [Multistate.Update, Multistate.updateUTXOLedgerDB, h,
        Multistate.TrieUpdatable.commit, List.nil_append, Multistate.writeLatestSlot,
        Multistate.writeRootRecord, Multistate.FetchLatestCommittedSlot]
      by_cases hlt : st.latestSlot < pp.stemOutputID.slot
      · rw [if_pos hlt, if_pos hlt, commitBatch_append, commitBatch_append]
        rfl
      · rw [if_neg hlt, if_neg hlt, commitBatch_append]
        exact (commitBatch_trieKV_proj t1.delta st).1
  refine ⟨hmain, ?_⟩
  rw [hmain]
  cases p with
  | none => exact le_refl _
  | some pp =>
    dsimp only
    split <;> omega

/-- C6 witness: a branch commit with a non-zero stem slot over a store
whose latest slot is 0. -/
theorem C6_latest_slot_monotone_witness :
    ((Multistate.Update ⟨[], [], 0⟩ ⟨7, []⟩ (fun t => Except.ok t)
        (some ⟨sampleOutputID2, 3, 4, 6, 9, 2⟩)).1.latestSlot
      = if (0 : Nat) < sampleOutputID2.slot then sampleOutputID2.slot else 0)
    ∧ (0 : Nat) ≤ (Multistate.Update ⟨[], [], 0⟩ ⟨7, []⟩ (fun t => Except.ok t)
        (some ⟨sampleOutputID2, 3, 4, 6, 9, 2⟩)).1.latestSlot :=
  C6_latest_slot_monotone ⟨[], [], 0⟩ ⟨7, []⟩ (fun t => Except.ok t)
    (some ⟨sampleOutputID2, 3, 4, 6, 9, 2⟩) ⟨7, []⟩ rfl

theorem getStemStep_ok_count (s : Multistate.StateKV) (acc : Nat × Nat × List Nat)
    (k : List Nat) (b : Nat × Nat × List Nat)
    (h : Multistate.getStemStep s acc k = .ok b) : b.1 = acc.1 + 1 := by
  rw [Multistate.getStemStep] at h
  split at h
  · cases h
  · split at h
    · cases h
    · split at h
      · cases h
      · cases h
        rfl

/-- C9 (amended): under the precondition that the Accounts partition
holds exactly one index record under the stem account and that record's
OutputID resolves in the LedgerState partition, `GetStem` returns that
unique stem output's slot and raw bytes with its internal assertions
unreachable; on a state with at least one stem index record that
violates the precondition (two or more records, or a record that fails
to parse or to resolve) the operation fails; but on a state with zero
stem index records it does not fail: it returns the zero slot and empty
bytes. -/
theorem C9_get_stem (s : Multistate.StateKV) (k : List Nat) (id : OutputID)
    (bs : List Nat) (e : String) :
    (s.keysUnderPfx Multistate.stemAccountPfx = [k] →
      OutputIDFromBytes (k.drop Multistate.stemAccountPfx.length) = .ok id →
      Multistate.getUTXO s id = some bs →
      Multistate.GetStem s = .ok (id.slot, bs))
    ∧ (s.keysUnderPfx Multistate.stemAccountPfx = [] →
      Multistate.GetStem s = .ok (0, []))
    ∧ (2 ≤ (s.keysUnderPfx Multistate.stemAccountPfx).length →
      ∃ e', Multistate.GetStem s = .error e')
    ∧ (s.keysUnderPfx Multistate.stemAccountPfx = [k] →
      OutputIDFromBytes (k.drop Multistate.stemAccountPfx.length) = .ok id →
      Multistate.getUTXO s id = none →
      Multistate.GetStem s = .error "can't find stem output")
    ∧ (s.keysUnderPfx Multistate.stemAccountPfx = [k] →
      OutputIDFromBytes (k.drop Multistate.stemAccountPfx.length) = .error e →
      Multistate.GetStem s = .error e) := by
  refine ⟨?_, ?_, ?_, ?_, ?_⟩
  · intro hkeys hid hbs
    have hstep : Multistate.getStemStep s (0, 0, []) k = .ok (1, id.slot, bs) := by
      simp [Multistate.getStemStep, hid, hbs]
    rw [Multistate.GetStem, hkeys]
    simp only [List.foldlM, hstep]
    rfl
  · intro hkeys
    rw [Multistate.GetStem, hkeys]
    rfl
  · intro hlen
    rcases hk : s.keysUnderPfx Multistate.stemAccountPfx with _ | ⟨k1, _ | ⟨k2, rest⟩⟩
    · rw [hk] at hlen
      simp at hlen
    · rw [hk] at hlen
      simp at hlen
    · rw [Multistate.GetStem, hk]
      rcases hstep1 : Multistate.getStemStep s (0, 0, []) k1 with e1 | b1
      · refine ⟨e1, ?_⟩
        simp only [List.foldlM, hstep1]
        rfl
      · have hb1 : b1.1 = 1 := getStemStep_ok_count s _ k1 b1 hstep1
        have hstep2 : Multistate.getStemStep s b1 k2
            = .error "inconsistency: must be exactly 1 index record for stem output" := by
          rw [Multistate.getStemStep, if_pos (by omega)]
        refine ⟨"inconsistency: must be exactly 1 index record for stem output", ?_⟩
        simp only [List.foldlM, hstep1]
        show (Multistate.getStemStep s b1 k2
          >>= fun b => rest.foldlM (Multistate.getStemStep s) b).map
            (fun acc => (acc.2.1, acc.2.2)) = _
        rw [hstep2]
        rfl
  · intro hkeys hid hbs
    have hstep : Multistate.getStemStep s (0, 0, []) k
        = .error "can't find stem output" := by
      simp [Multistate.getStemStep, hid, hbs]
    rw [Multistate.GetStem, hkeys]
    simp only [List.foldlM, hstep]
    rfl
  · intro hkeys hid
    have hstep : Multistate.getStemStep s (0, 0, []) k = .error e := by
      simp [Multistate.getStemStep, hid]
    rw [Multistate.GetStem, hkeys]
    simp only [List.foldlM, hstep]
    rfl

/-- C9 counterexample: the empty state violates the stem precondition
(it has zero stem index records), yet `GetStem` does not fail: it
returns the zero slot and empty bytes. -/
theorem C9_get_stem_counterexample :
    Multistate.StateKV.keysUnderPfx ⟨[]⟩ Multistate.stemAccountPfx = []
    ∧ Multistate.GetStem ⟨[]⟩ = .ok (0, []) :=
  ⟨rfl, rfl⟩

/-- C9 witness: a state with exactly one resolvable stem index record. -/
theorem C9_get_stem_witness :
    Multistate.GetStem sampleStemState = .ok (sampleOutputID.slot, [9, 9]) :=
  (C9_get_stem sampleStemState (Multistate.stemAccountPfx ++ sampleOutputID.val)
      sampleOutputID [9, 9] "").1 (by decide) rfl rfl
